import Mathlib

/-!
# Polling-mode UART driver (serialDriver.c)

A shallow embedding of the serial driver and of its echo demo, and the
properties of the driver that follow from the code.

Conventions of the embedding:

* `uint32_t` values are natural numbers.  The only operation of the driver
  that can leave the 32-bit range is the product `16 * baud` of the divisor
  computation, which is reduced modulo `2 ^ 32` there; the complement `~x`
  is the 32-bit complement `not32`.
* `char` is the unsigned 8-bit type of the ARM target of the board; the
  conversion of a value to `char` is `toChar`.
* The register block `*pSerialPort` is volatile.  Every access is recorded,
  in program order, in `Machine.trace`.  A write stores the value in the
  register.  The line-status register and the data register are driven by
  the device: a read of either first lets the device present its next value
  (`statusFeed`, `rxFeed`) and then loads the register.  The other registers
  are plain latches: a read loads what was stored last.
* The two busy-wait loops and the demo loop take a bound `fuel` on the number
  of iterations; running out of it is `none`, as is the division by zero of
  the divisor computation.
-/

namespace SerialDriver

/-! ## Constants -/

/-- Bit masks of the UART registers.  They come from the board headers
`pxa255.h` and `viperlite.h`, which are not part of the sources, so the driver
is parameterised by them. -/
structure HwConsts where
  UART_PORT_ENABLE : Nat
  DIVISOR_ACCESS_ENABLE : Nat
  PARITY_ENABLE : Nat
  EVEN_PARITY_ENABLE : Nat
  DATABITS_LENGTH_0 : Nat
  DATABITS_LENGTH_1 : Nat
  STOP_BITS : Nat
  deriving DecidableEq, Repr

/-- The masks are 32-bit values, and the divisor-access bit of the line-config
register is none of the bits of its data-length, parity and stop-bit fields. -/
def HwConsts.WellFormed (c : HwConsts) : Prop :=
  (c.UART_PORT_ENABLE < 2 ^ 32 ∧ c.DIVISOR_ACCESS_ENABLE < 2 ^ 32) ∧
  (c.DATABITS_LENGTH_0 < 2 ^ 32 ∧ c.DATABITS_LENGTH_0 &&& c.DIVISOR_ACCESS_ENABLE = 0) ∧
  (c.DATABITS_LENGTH_1 < 2 ^ 32 ∧ c.DATABITS_LENGTH_1 &&& c.DIVISOR_ACCESS_ENABLE = 0) ∧
  (c.PARITY_ENABLE < 2 ^ 32 ∧ c.PARITY_ENABLE &&& c.DIVISOR_ACCESS_ENABLE = 0) ∧
  (c.EVEN_PARITY_ENABLE < 2 ^ 32 ∧ c.EVEN_PARITY_ENABLE &&& c.DIVISOR_ACCESS_ENABLE = 0) ∧
  (c.STOP_BITS < 2 ^ 32 ∧ c.STOP_BITS &&& c.DIVISOR_ACCESS_ENABLE = 0)

instance (c : HwConsts) : Decidable c.WellFormed := by
  unfold HwConsts.WellFormed; infer_instance

/-- One assignment of the masks, laid out as the interrupt-enable and
line-control registers of a 16550-style UART such as the one of the PXA255:
unit enable is bit 6, divisor latch access is bit 7, word length bits 0 and 1,
stop bits bit 2, parity enable bit 3, even parity bit 4. -/
def pxa255 : HwConsts where
  UART_PORT_ENABLE := 0x40
  DIVISOR_ACCESS_ENABLE := 0x80
  PARITY_ENABLE := 0x08
  EVEN_PARITY_ENABLE := 0x10
  DATABITS_LENGTH_0 := 0x01
  DATABITS_LENGTH_1 := 0x02
  STOP_BITS := 0x04

/-- Modelled from the spec: the macro `FALSE` of an absent header; the
initialization flag is a boolean that starts out false. -/
def FALSE : Int := 0

/-- Modelled from the spec: the macro `TRUE` of an absent header; the value the
initialization flag is set to, once. -/
def TRUE : Int := 1

def TRANSMITTER_EMPTY : Nat := 0x40

def DATA_READY : Nat := 0x01

/-- The macro `UART_BAUD_RATE_DIVISOR(baud)`, `14745600/(16*(baud))`, on a
`uint32_t` argument: the product wraps modulo `2 ^ 32`, and dividing by zero
has no result. -/
def UART_BAUD_RATE_DIVISOR (baud : Nat) : Option Nat :=
  if (16 * baud) % 2 ^ 32 = 0 then none
  else some (14745600 / ((16 * baud) % 2 ^ 32))

/-- The complement `~x` of a 32-bit value. -/
def not32 (x : Nat) : Nat := 2 ^ 32 - 1 - x % 2 ^ 32

/-- Conversion to `char`. -/
def toChar (v : Nat) : Nat := v % 256

/-! ## Data model -/

inductive parity_t where
  | PARITY_NONE
  | PARITY_ODD
  | PARITY_EVEN
  deriving DecidableEq, Repr

inductive databits_t where
  | DATA_5
  | DATA_6
  | DATA_7
  | DATA_8
  deriving DecidableEq, Repr

inductive stopbits_t where
  | STOP_1
  | STOP_2
  deriving DecidableEq, Repr

/-- Values of the enumerators of `parity_t`. -/
def parity_t.val (c : HwConsts) : parity_t → Nat
  | .PARITY_NONE => 0
  | .PARITY_ODD => c.PARITY_ENABLE
  | .PARITY_EVEN => c.PARITY_ENABLE ||| c.EVEN_PARITY_ENABLE

/-- Values of the enumerators of `databits_t`. -/
def databits_t.val (c : HwConsts) : databits_t → Nat
  | .DATA_5 => 0
  | .DATA_6 => c.DATABITS_LENGTH_0
  | .DATA_7 => c.DATABITS_LENGTH_1
  | .DATA_8 => c.DATABITS_LENGTH_0 ||| c.DATABITS_LENGTH_1

/-- Values of the enumerators of `stopbits_t`. -/
def stopbits_t.val (c : HwConsts) : stopbits_t → Nat
  | .STOP_1 => 0
  | .STOP_2 => c.STOP_BITS

structure serialparams_t where
  dataBits : Nat
  stopBits : Nat
  baudRate : Nat
  parity : Nat
  deriving DecidableEq, Repr

structure uart_t where
  data : Nat
  interruptEnable : Nat
  interruptStatus : Nat
  uartConfig : Nat
  pinConfig : Nat
  uartStatus : Nat
  pinStatus : Nat
  deriving DecidableEq, Repr

/-- Names of the fields of `uart_t`. -/
inductive Reg where
  | data
  | interruptEnable
  | interruptStatus
  | uartConfig
  | pinConfig
  | uartStatus
  | pinStatus
  deriving DecidableEq, Repr

/-- One volatile access to the register block, with the value loaded or
stored. -/
inductive Access where
  | read (r : Reg) (v : Nat)
  | write (r : Reg) (v : Nat)
  deriving DecidableEq, Repr

def uart_t.get (u : uart_t) : Reg → Nat
  | .data => u.data
  | .interruptEnable => u.interruptEnable
  | .interruptStatus => u.interruptStatus
  | .uartConfig => u.uartConfig
  | .pinConfig => u.pinConfig
  | .uartStatus => u.uartStatus
  | .pinStatus => u.pinStatus

def uart_t.set (u : uart_t) (r : Reg) (v : Nat) : uart_t :=
  match r with
  | .data => { u with data := v }
  | .interruptEnable => { u with interruptEnable := v }
  | .interruptStatus => { u with interruptStatus := v }
  | .uartConfig => { u with uartConfig := v }
  | .pinConfig => { u with pinConfig := v }
  | .uartStatus => { u with uartStatus := v }
  | .pinStatus => { u with pinStatus := v }

/-- The program state: the register block behind `pSerialPort`, the global
`gSerialParams`, the static `bInitialized` of `serialInit`, what the device
will present on the coming reads of the line-status and data registers, and
the accesses made so far. -/
structure Machine where
  port : uart_t
  gSerialParams : serialparams_t
  bInitialized : Int
  statusFeed : List Nat
  rxFeed : List Nat
  trace : List Access
  deriving DecidableEq, Repr

/-- A store to a register. -/
def Machine.write (m : Machine) (r : Reg) (v : Nat) : Machine :=
  { m with port := m.port.set r v, trace := m.trace ++ [Access.write r v] }

/-- What the device does just before register `r` is loaded. -/
def Machine.deviceStep (m : Machine) : Reg → Machine
  | .uartStatus =>
    match m.statusFeed with
    | [] => m
    | s :: rest => { m with port := m.port.set .uartStatus s, statusFeed := rest }
  | .data =>
    match m.rxFeed with
    | [] => m
    | v :: rest => { m with port := m.port.set .data v, rxFeed := rest }
  | _ => m

/-- The value a load of register `r` yields in state `m`. -/
def Machine.peek (m : Machine) (r : Reg) : Nat :=
  (m.deviceStep r).port.get r

/-- A load from a register: the value and the state after it. -/
def Machine.read (m : Machine) (r : Reg) : Nat × Machine :=
  (m.peek r,
   { m.deviceStep r with trace := (m.deviceStep r).trace ++ [Access.read r (m.peek r)] })

/-- A compound assignment `reg op= ...`: load, compute, store. -/
def Machine.update (m : Machine) (r : Reg) (f : Nat → Nat) : Machine :=
  (m.read r).2.write r (f (m.read r).1)

/-! ## The driver -/

/-- The function `serialConfig`. -/
def serialConfig (c : HwConsts) (params : serialparams_t) (m : Machine) : Option Machine :=
  -- pSerialPort->interruptEnable &= ~(UART_PORT_ENABLE);
  let m := m.update .interruptEnable (fun v => v &&& not32 c.UART_PORT_ENABLE)
  -- pSerialPort->uartConfig = (params->dataBits | params->parity | params->stopBits);
  let m := m.write .uartConfig (params.dataBits ||| params.parity ||| params.stopBits)
  -- pSerialPort->uartConfig |= DIVISOR_ACCESS_ENABLE;
  let m := m.update .uartConfig (fun v => v ||| c.DIVISOR_ACCESS_ENABLE)
  -- baudRateDivisor = (UART_BAUD_RATE_DIVISOR(params->baudRate));
  match UART_BAUD_RATE_DIVISOR params.baudRate with
  | none => none
  | some baudRateDivisor =>
    -- pSerialPort->interruptEnable = ((baudRateDivisor >> 8) & 0xFF);
    let m := m.write .interruptEnable ((baudRateDivisor >>> 8) &&& 0xFF)
    -- pSerialPort->data = (baudRateDivisor & 0xFF);
    let m := m.write .data (baudRateDivisor &&& 0xFF)
    -- pSerialPort->uartConfig &= ~(DIVISOR_ACCESS_ENABLE);
    let m := m.update .uartConfig (fun v => v &&& not32 c.DIVISOR_ACCESS_ENABLE)
    -- pSerialPort->interruptEnable |= UART_PORT_ENABLE;
    let m := m.update .interruptEnable (fun v => v ||| c.UART_PORT_ENABLE)
    some m

/-- The function `serialInit`. -/
def serialInit (c : HwConsts) (m : Machine) : Option Machine :=
  if m.bInitialized = FALSE then
    -- gSerialParams.baudRate = 115200;
    let m := { m with gSerialParams := { m.gSerialParams with baudRate := 115200 } }
    -- gSerialParams.dataBits = DATA_8;
    let m := { m with gSerialParams :=
                { m.gSerialParams with dataBits := databits_t.val c .DATA_8 } }
    -- gSerialParams.parity = PARITY_NONE;
    let m := { m with gSerialParams :=
                { m.gSerialParams with parity := parity_t.val c .PARITY_NONE } }
    -- gSerialParams.stopBits = STOP_1;
    let m := { m with gSerialParams :=
                { m.gSerialParams with stopBits := stopbits_t.val c .STOP_1 } }
    -- serialConfig(&gSerialParams); bInitialized = TRUE;
    (serialConfig c m.gSerialParams m).map fun m => { m with bInitialized := TRUE }
  else some m

/-- The function `serialPutChar`; `fuel` bounds the polls of the busy-wait. -/
def serialPutChar : Nat → Nat → Machine → Option Machine
  | 0, _, _ => none
  | fuel + 1, outputChar, m =>
    if (m.read .uartStatus).1 &&& TRANSMITTER_EMPTY = 0 then
      serialPutChar fuel outputChar (m.read .uartStatus).2
    else
      some ((m.read .uartStatus).2.write .data (toChar outputChar))

/-- The function `serialGetChar`; `fuel` bounds the polls of the busy-wait. -/
def serialGetChar : Nat → Machine → Option (Nat × Machine)
  | 0, _ => none
  | fuel + 1, m =>
    if (m.read .uartStatus).1 &&& DATA_READY = 0 then
      serialGetChar fuel (m.read .uartStatus).2
    else
      some (toChar ((m.read .uartStatus).2.read .data).1,
            ((m.read .uartStatus).2.read .data).2)

/-- The `while (rcvChar != 'q')` loop of `main`; `fuel` bounds the number of
times the loop condition is evaluated, and each busy-wait inside. -/
def mainLoop (fuel : Nat) : Nat → Nat → Machine → Option Machine
  | 0, _, _ => none
  | n + 1, rcvChar, m =>
    if rcvChar ≠ 113 then
      match serialGetChar fuel m with
      | none => none
      | some (rcvChar, m) =>
        match serialPutChar fuel rcvChar m with
        | none => none
        | some m =>
          match serialPutChar fuel 13 m with
          | none => none
          | some m =>
            match serialPutChar fuel 10 m with
            | none => none
            | some m => mainLoop fuel n rcvChar m
    else some m

/-- The function `main`: the exit status and the final state.  The character
constants are written as their codes: `'s'` 115, `'t'` 116, `'a'` 97, `'r'` 114,
carriage return 13, line feed 10, `'q'` 113. -/
def main (c : HwConsts) (fuel : Nat) (m : Machine) : Option (Int × Machine) := do
  let rcvChar := toChar 0
  let m ← serialInit c m
  let m ← serialPutChar fuel 115 m
  let m ← serialPutChar fuel 116 m
  let m ← serialPutChar fuel 97 m
  let m ← serialPutChar fuel 114 m
  let m ← serialPutChar fuel 116 m
  let m ← serialPutChar fuel 13 m
  let m ← serialPutChar fuel 10 m
  let m ← mainLoop fuel fuel rcvChar m
  pure (0, m)

/-- The stores among a list of accesses, in order. -/
def writesOf : List Access → List (Reg × Nat)
  | [] => []
  | Access.write r v :: t => (r, v) :: writesOf t
  | Access.read _ _ :: t => writesOf t

/-- The values stored to register `r` among a list of accesses, in order. -/
def writesTo (r : Reg) : List Access → List Nat
  | [] => []
  | Access.write r' v :: t => if r' = r then v :: writesTo r t else writesTo r t
  | Access.read _ _ :: t => writesTo r t

/-- The echo of a list of characters: each followed by carriage return and
line feed. -/
def echoOf : List Nat → List Nat
  | [] => []
  | b :: t => b :: 13 :: 10 :: echoOf t

/-- A line-status value with both the transmitter-empty and the data-ready bit
set. -/
def Ready (s : Nat) : Prop := s &&& TRANSMITTER_EMPTY ≠ 0 ∧ s &&& DATA_READY ≠ 0

instance (s : Nat) : Decidable (Ready s) := by
  unfold Ready; infer_instance

/-- The device reports ready on every poll to come. -/
def Machine.AlwaysReady (m : Machine) : Prop :=
  Ready m.port.uartStatus ∧ ∀ s ∈ m.statusFeed, Ready s

instance (m : Machine) : Decidable m.AlwaysReady := by
  unfold Machine.AlwaysReady; infer_instance

/-- The state after `n` consecutive polls of the line-status register. -/
def pollStatus : Nat → Machine → Machine
  | 0, m => m
  | n + 1, m => pollStatus n (m.read .uartStatus).2

/-- The state `serialConfig` ends in when the divisor is `d`. -/
def configured (c : HwConsts) (params : serialparams_t) (d : Nat) (m : Machine) : Machine :=
  { m with
    port := { m.port with
      data := d &&& 0xFF
      interruptEnable := ((d >>> 8) &&& 0xFF) ||| c.UART_PORT_ENABLE
      uartConfig := ((params.dataBits ||| params.parity ||| params.stopBits)
        ||| c.DIVISOR_ACCESS_ENABLE) &&& not32 c.DIVISOR_ACCESS_ENABLE }
    trace := m.trace ++
      [Access.read .interruptEnable m.port.interruptEnable,
       Access.write .interruptEnable (m.port.interruptEnable &&& not32 c.UART_PORT_ENABLE),
       Access.write .uartConfig (params.dataBits ||| params.parity ||| params.stopBits),
       Access.read .uartConfig (params.dataBits ||| params.parity ||| params.stopBits),
       Access.write .uartConfig
         ((params.dataBits ||| params.parity ||| params.stopBits) ||| c.DIVISOR_ACCESS_ENABLE),
       Access.write .interruptEnable ((d >>> 8) &&& 0xFF),
       Access.write .data (d &&& 0xFF),
       Access.read .uartConfig
         ((params.dataBits ||| params.parity ||| params.stopBits) ||| c.DIVISOR_ACCESS_ENABLE),
       Access.write .uartConfig
         (((params.dataBits ||| params.parity ||| params.stopBits)
           ||| c.DIVISOR_ACCESS_ENABLE) &&& not32 c.DIVISOR_ACCESS_ENABLE),
       Access.read .interruptEnable ((d >>> 8) &&& 0xFF),
       Access.write .interruptEnable (((d >>> 8) &&& 0xFF) ||| c.UART_PORT_ENABLE)] }

/-- The parameters `serialInit` stores in `gSerialParams`. -/
def defaultParams (c : HwConsts) : serialparams_t where
  dataBits := databits_t.val c .DATA_8
  stopBits := stopbits_t.val c .STOP_1
  baudRate := 115200
  parity := parity_t.val c .PARITY_NONE

/-- A state in which nothing has happened yet: registers zero, flag clear,
the device presenting `status` forever and `rx` as the received values. -/
def Machine.reset (status : Nat) (rx : List Nat) : Machine where
  port := ⟨0, 0, 0, 0, 0, status, 0⟩
  gSerialParams := ⟨0, 0, 0, 0⟩
  bInitialized := FALSE
  statusFeed := []
  rxFeed := rx
  trace := []

/-! ## Bit-level facts -/

theorem testBit_not32 (x i : Nat) :
    (not32 x).testBit i = (decide (i < 32) && !x.testBit i) := by
  have h : x % 2 ^ 32 < 2 ^ 32 := Nat.mod_lt _ (by norm_num)
  have e : not32 x = 2 ^ 32 - (x % 2 ^ 32 + 1) := by unfold not32; omega
  rw [e, Nat.testBit_two_pow_sub_succ h, Nat.testBit_mod_two_pow]
  cases decide (i < 32) <;> simp

theorem and_not32_and_self (x u : Nat) : (x &&& not32 u) &&& u = 0 := by
  apply Nat.eq_of_testBit_eq
  intro i
  simp only [Nat.testBit_and, testBit_not32, Nat.zero_testBit]
  cases x.testBit i <;> cases u.testBit i <;> cases decide (i < 32) <;> rfl

theorem or_and_self (x u : Nat) : (x ||| u) &&& u = u := by
  apply Nat.eq_of_testBit_eq
  intro i
  simp only [Nat.testBit_and, Nat.testBit_or]
  cases x.testBit i <;> cases u.testBit i <;> rfl

theorem or_and_not32 {v d : Nat} (hv : v < 2 ^ 32) (hd : v &&& d = 0) :
    (v ||| d) &&& not32 d = v := by
  apply Nat.eq_of_testBit_eq
  intro i
  have h1 : (v.testBit i && d.testBit i) = false := by
    rw [← Nat.testBit_and, hd, Nat.zero_testBit]
  have h2 : ¬ i < 32 → v.testBit i = false := fun h =>
    Nat.testBit_lt_two_pow (lt_of_lt_of_le hv (Nat.pow_le_pow_right (by norm_num) (by omega)))
  simp only [Nat.testBit_and, Nat.testBit_or, testBit_not32]
  by_cases hi : i < 32
  · simp only [hi, decide_True, Bool.true_and]
    revert h1
    cases v.testBit i <;> cases d.testBit i <;> simp
  · simp [hi, h2 hi]

theorem or_and_eq_zero {a b d : Nat} (ha : a &&& d = 0) (hb : b &&& d = 0) :
    (a ||| b) &&& d = 0 := by
  apply Nat.eq_of_testBit_eq
  intro i
  have h1 : (a.testBit i && d.testBit i) = false := by
    rw [← Nat.testBit_and, ha, Nat.zero_testBit]
  have h2 : (b.testBit i && d.testBit i) = false := by
    rw [← Nat.testBit_and, hb, Nat.zero_testBit]
  simp only [Nat.testBit_and, Nat.testBit_or, Nat.zero_testBit]
  revert h1 h2
  cases a.testBit i <;> cases b.testBit i <;> cases d.testBit i <;> simp

theorem and_255 (x : Nat) : x &&& 0xFF = x % 256 :=
  Nat.and_pow_two_sub_one_eq_mod x 8

theorem shiftRight_8 (x : Nat) : x >>> 8 = x / 256 :=
  Nat.shiftRight_eq_div_pow x 8

/-- Every line-config pattern built from the enumerators is a 32-bit value
that has the divisor-access bit clear. -/
theorem lineConfig_wellFormed {c : HwConsts} (hc : c.WellFormed)
    (d : databits_t) (par : parity_t) (s : stopbits_t) :
    d.val c ||| par.val c ||| s.val c < 2 ^ 32 ∧
      (d.val c ||| par.val c ||| s.val c) &&& c.DIVISOR_ACCESS_ENABLE = 0 := by
  obtain ⟨-, ⟨l0, z0⟩, ⟨l1, z1⟩, ⟨lp, zp⟩, ⟨le, ze⟩, ⟨ls, zs⟩⟩ := hc
  have hd : d.val c < 2 ^ 32 ∧ d.val c &&& c.DIVISOR_ACCESS_ENABLE = 0 := by
    cases d
    · exact ⟨by simp [databits_t.val], by simp [databits_t.val]⟩
    · exact ⟨l0, z0⟩
    · exact ⟨l1, z1⟩
    · exact ⟨Nat.or_lt_two_pow l0 l1, or_and_eq_zero z0 z1⟩
  have hp : par.val c < 2 ^ 32 ∧ par.val c &&& c.DIVISOR_ACCESS_ENABLE = 0 := by
    cases par
    · exact ⟨by simp [parity_t.val], by simp [parity_t.val]⟩
    · exact ⟨lp, zp⟩
    · exact ⟨Nat.or_lt_two_pow lp le, or_and_eq_zero zp ze⟩
  have hs : s.val c < 2 ^ 32 ∧ s.val c &&& c.DIVISOR_ACCESS_ENABLE = 0 := by
    cases s
    · exact ⟨by simp [stopbits_t.val], by simp [stopbits_t.val]⟩
    · exact ⟨ls, zs⟩
  exact ⟨Nat.or_lt_two_pow (Nat.or_lt_two_pow hd.1 hp.1) hs.1,
    or_and_eq_zero (or_and_eq_zero hd.2 hp.2) hs.2⟩

/-! ## The divisor computation -/

theorem divisor_eq_none_iff (b : Nat) :
    UART_BAUD_RATE_DIVISOR b = none ↔ b % 2 ^ 28 = 0 := by
  unfold UART_BAUD_RATE_DIVISOR
  constructor
  · intro h
    split at h
    · omega
    · cases h
  · intro h
    rw [if_pos (by omega)]

theorem divisor_of_ne_zero {b : Nat} (h : (16 * b) % 2 ^ 32 ≠ 0) :
    UART_BAUD_RATE_DIVISOR b = some (14745600 / ((16 * b) % 2 ^ 32)) := by
  unfold UART_BAUD_RATE_DIVISOR
  rw [if_neg h]

theorem divisor_of_lt {b : Nat} (h0 : 0 < b) (h : b < 2 ^ 28) :
    UART_BAUD_RATE_DIVISOR b = some (14745600 / (16 * b)) := by
  unfold UART_BAUD_RATE_DIVISOR
  have e : (16 * b) % 2 ^ 32 = 16 * b := Nat.mod_eq_of_lt (by omega)
  rw [e, if_neg (by omega)]

/-! ## serialConfig and serialInit in closed form -/

theorem serialConfig_of_divisor (c : HwConsts) (params : serialparams_t) (m : Machine)
    {d : Nat} (h : UART_BAUD_RATE_DIVISOR params.baudRate = some d) :
    serialConfig c params m = some (configured c params d m) := by
  simp [serialConfig, h, configured, Machine.update, Machine.read, Machine.write,
    Machine.peek, Machine.deviceStep, uart_t.get, uart_t.set]

theorem serialConfig_eq_none_iff (c : HwConsts) (params : serialparams_t) (m : Machine) :
    serialConfig c params m = none ↔ UART_BAUD_RATE_DIVISOR params.baudRate = none := by
  cases h : UART_BAUD_RATE_DIVISOR params.baudRate with
  | none => simp [serialConfig, h]
  | some d => simp [serialConfig_of_divisor c params m h]

theorem divisor_default : UART_BAUD_RATE_DIVISOR 115200 = some 8 := by
  unfold UART_BAUD_RATE_DIVISOR
  norm_num

theorem serialInit_eq (c : HwConsts) (m : Machine) :
    serialInit c m = some (if m.bInitialized = FALSE then
      { configured c (defaultParams c) 8 { m with gSerialParams := defaultParams c } with
        bInitialized := TRUE }
      else m) := by
  have e : serialConfig c (defaultParams c) { m with gSerialParams := defaultParams c } =
      some (configured c (defaultParams c) 8 { m with gSerialParams := defaultParams c }) :=
    serialConfig_of_divisor c (defaultParams c) _ divisor_default
  by_cases h : m.bInitialized = FALSE
  · unfold serialInit
    rw [if_pos h, if_pos h]
    show Option.map _ (serialConfig c (defaultParams c)
      { m with gSerialParams := defaultParams c }) = _
    rw [e]
    rfl
  · unfold serialInit
    rw [if_neg h, if_neg h]

theorem writesTo_append (r : Reg) (a b : List Access) :
    writesTo r (a ++ b) = writesTo r a ++ writesTo r b := by
  induction a with
  | nil => rfl
  | cons x t ih =>
    cases x with
    | read r' v => simpa [writesTo] using ih
    | write r' v =>
      by_cases h : r' = r <;> simp [writesTo, h, ih]

/-! ## Configuration -/

/-- C1, as stated, fails: for the 32-bit baud rate `2 ^ 28 + 1` the product
`16 * baud` wraps to 16, so `serialConfig` stores 16 in the interrupt-enable
register as the divisor high byte, whereas the quotient
`14745600 / (16 * baud)` over the integers is 0, with high byte 0. -/
theorem serialConfig_divisor_wraps :
    0 < 268435457 ∧ 268435457 < 2 ^ 32 ∧
    (serialConfig pxa255 ⟨3, 0, 268435457, 0⟩ (Machine.reset 0 [])).map
        (fun m => (writesTo .interruptEnable m.trace, writesTo .data m.trace)) =
      some ([0, 16, 80], [0]) ∧
    ((14745600 / (16 * 268435457)) >>> 8) &&& 0xFF = 0 := by
  decide

/-- C1 (amended): for every baud rate `b` for which `16 * b` is not zero modulo
`2 ^ 32`, `serialConfig` returns, the values it stores in the interrupt-enable
register are the old value with the port-enable bit cleared, then
`(d >> 8) & 0xFF`, then that value with the port-enable bit set, and the one
value it stores in the data register is `d & 0xFF`, where
`d = 14745600 / ((16 * b) mod 2 ^ 32)`; for `b < 2 ^ 28` this `d` is
`14745600 / (16 * b)` over the integers. -/
theorem serialConfig_divisor_bytes (c : HwConsts) (params : serialparams_t) (m : Machine)
    (h : (16 * params.baudRate) % 2 ^ 32 ≠ 0) :
    ∃ m' t, serialConfig c params m = some m' ∧ m'.trace = m.trace ++ t ∧
      writesTo .interruptEnable t =
        [m.port.interruptEnable &&& not32 c.UART_PORT_ENABLE,
         ((14745600 / ((16 * params.baudRate) % 2 ^ 32)) >>> 8) &&& 0xFF,
         (((14745600 / ((16 * params.baudRate) % 2 ^ 32)) >>> 8) &&& 0xFF)
           ||| c.UART_PORT_ENABLE] ∧
      writesTo .data t = [(14745600 / ((16 * params.baudRate) % 2 ^ 32)) &&& 0xFF] ∧
      (params.baudRate < 2 ^ 28 →
        14745600 / ((16 * params.baudRate) % 2 ^ 32) = 14745600 / (16 * params.baudRate)) := by
  refine ⟨_, _, serialConfig_of_divisor c params m (divisor_of_ne_zero h), rfl, ?_, ?_, ?_⟩
  · simp [writesTo]
  · simp [writesTo]
  · intro hb
    rw [Nat.mod_eq_of_lt (by omega)]

theorem serialConfig_divisor_bytes_witness :
    ∃ m' t, serialConfig pxa255 ⟨3, 0, 115200, 0⟩ (Machine.reset 0 []) = some m' ∧
      m'.trace = [] ++ t ∧
      writesTo .interruptEnable t = [0, 0, 64] ∧ writesTo .data t = [8] ∧
      (115200 < 2 ^ 28 → 14745600 / ((16 * 115200) % 2 ^ 32) = 14745600 / (16 * 115200)) :=
  serialConfig_divisor_bytes pxa255 ⟨3, 0, 115200, 0⟩ (Machine.reset 0 []) (by decide)

/-- C2: for all enumerators of `databits_t`, `stopbits_t` and `parity_t` and
every baud rate above 0, whenever `serialConfig` returns, the line-config
register holds exactly `dataBits | parity | stopBits`, whatever the state
before the call; and it does return for every baud rate below `2 ^ 28`. -/
theorem serialConfig_line_config (c : HwConsts) (hc : c.WellFormed)
    (d : databits_t) (s : stopbits_t) (par : parity_t) (b : Nat) (hb : 0 < b) (m : Machine) :
    (∀ m', serialConfig c ⟨d.val c, s.val c, b, par.val c⟩ m = some m' →
      m'.port.uartConfig = d.val c ||| par.val c ||| s.val c) ∧
    (b < 2 ^ 28 → ∃ m', serialConfig c ⟨d.val c, s.val c, b, par.val c⟩ m = some m') := by
  obtain ⟨hlt, hz⟩ := lineConfig_wellFormed hc d par s
  constructor
  · intro m' hm'
    cases hdiv : UART_BAUD_RATE_DIVISOR b with
    | none =>
      rw [(serialConfig_eq_none_iff c ⟨d.val c, s.val c, b, par.val c⟩ m).2 hdiv] at hm'
      cases hm'
    | some dv =>
      rw [serialConfig_of_divisor c ⟨d.val c, s.val c, b, par.val c⟩ m hdiv] at hm'
      cases hm'
      exact or_and_not32 hlt hz
  · intro hlt28
    exact ⟨_, serialConfig_of_divisor c ⟨d.val c, s.val c, b, par.val c⟩ m
      (divisor_of_lt hb hlt28)⟩

theorem serialConfig_line_config_witness :
    (∀ m', serialConfig pxa255 ⟨3, 4, 9600, 24⟩ (Machine.reset 0 []) = some m' →
      m'.port.uartConfig = 3 ||| 24 ||| 4) ∧
    (9600 < 2 ^ 28 → ∃ m', serialConfig pxa255 ⟨3, 4, 9600, 24⟩ (Machine.reset 0 []) = some m') :=
  serialConfig_line_config pxa255 (by decide) .DATA_8 .STOP_2 .PARITY_EVEN 9600 (by decide)
    (Machine.reset 0 [])

/-- C7, as stated, fails: the baud rate `2 ^ 28` is greater than 0 and fits 32
bits, yet `16 * baud` is 0 in 32-bit unsigned arithmetic, so the divisor
computation divides by zero. -/
theorem divisor_zero_at_two_pow_28 :
    0 < 268435456 ∧ 268435456 < 2 ^ 32 ∧ (16 * 268435456) % 2 ^ 32 = 0 ∧
    UART_BAUD_RATE_DIVISOR 268435456 = none := by
  decide

/-- C7 (amended): `serialConfig` fails exactly when the baud rate is a multiple
of `2 ^ 28`: those are the values for which `16 * baudRate` is zero in 32-bit
unsigned arithmetic, and for every other baud rate the division-by-zero branch
is not taken. -/
theorem serialConfig_fails_iff (c : HwConsts) (params : serialparams_t) (m : Machine) :
    ((16 * params.baudRate) % 2 ^ 32 = 0 ↔ params.baudRate % 2 ^ 28 = 0) ∧
    (serialConfig c params m = none ↔ params.baudRate % 2 ^ 28 = 0) := by
  refine ⟨by omega, ?_⟩
  rw [serialConfig_eq_none_iff, divisor_eq_none_iff]

/-- C9, as stated, fails: at the baud rate `3 * 2 ^ 28`, which is greater than
0, `serialConfig` does not get through its seven stores, the divisor
computation having no result. -/
theorem serialConfig_stuck_at_wrapping_baud :
    0 < 805306368 ∧ serialConfig pxa255 ⟨3, 0, 805306368, 0⟩ (Machine.reset 0 []) = none := by
  decide

/-- C9 (amended): for every parameter record whose baud rate is not a multiple
of `2 ^ 28`, `serialConfig` returns after exactly seven stores, in this order:
interrupt-enable with the port-enable bit cleared, line-config with
`dataBits | parity | stopBits`, line-config with the divisor-access bit set,
interrupt-enable with the divisor high byte, data with the divisor low byte,
line-config with the divisor-access bit cleared, interrupt-enable with the
port-enable bit set; on return the divisor-access bit of the line-config
register is clear and the port-enable bit of the interrupt-enable register is
set. -/
theorem serialConfig_write_order (c : HwConsts) (params : serialparams_t) (m : Machine)
    (h : params.baudRate % 2 ^ 28 ≠ 0) :
    ∃ m' t d ier0 cfg cfgDlab cfgEnd ierEnd,
      serialConfig c params m = some m' ∧ m'.trace = m.trace ++ t ∧
      UART_BAUD_RATE_DIVISOR params.baudRate = some d ∧
      writesOf t =
        [(Reg.interruptEnable, ier0), (Reg.uartConfig, cfg), (Reg.uartConfig, cfgDlab),
         (Reg.interruptEnable, (d >>> 8) &&& 0xFF), (Reg.data, d &&& 0xFF),
         (Reg.uartConfig, cfgEnd), (Reg.interruptEnable, ierEnd)] ∧
      ier0 = m.port.interruptEnable &&& not32 c.UART_PORT_ENABLE ∧
      ier0 &&& c.UART_PORT_ENABLE = 0 ∧
      cfg = params.dataBits ||| params.parity ||| params.stopBits ∧
      cfgDlab = cfg ||| c.DIVISOR_ACCESS_ENABLE ∧
      cfgDlab &&& c.DIVISOR_ACCESS_ENABLE = c.DIVISOR_ACCESS_ENABLE ∧
      cfgEnd = cfgDlab &&& not32 c.DIVISOR_ACCESS_ENABLE ∧
      cfgEnd &&& c.DIVISOR_ACCESS_ENABLE = 0 ∧
      ierEnd = ((d >>> 8) &&& 0xFF) ||| c.UART_PORT_ENABLE ∧
      ierEnd &&& c.UART_PORT_ENABLE = c.UART_PORT_ENABLE ∧
      m'.port.uartConfig = cfgEnd ∧ m'.port.interruptEnable = ierEnd := by
  have hd : (16 * params.baudRate) % 2 ^ 32 ≠ 0 := by omega
  refine ⟨_, _, _, _, _, _, _, _,
    serialConfig_of_divisor c params m (divisor_of_ne_zero hd), rfl, divisor_of_ne_zero hd,
    ?_, rfl, and_not32_and_self _ _, rfl, rfl, or_and_self _ _, rfl, and_not32_and_self _ _,
    rfl, or_and_self _ _, rfl, rfl⟩
  simp [writesOf]

theorem serialConfig_write_order_witness :
    ∃ m' t d ier0 cfg cfgDlab cfgEnd ierEnd,
      serialConfig pxa255 ⟨3, 0, 115200, 0⟩ (Machine.reset 0 []) = some m' ∧
      m'.trace = [] ++ t ∧
      UART_BAUD_RATE_DIVISOR 115200 = some d ∧
      writesOf t =
        [(Reg.interruptEnable, ier0), (Reg.uartConfig, cfg), (Reg.uartConfig, cfgDlab),
         (Reg.interruptEnable, (d >>> 8) &&& 0xFF), (Reg.data, d &&& 0xFF),
         (Reg.uartConfig, cfgEnd), (Reg.interruptEnable, ierEnd)] ∧
      ier0 = 0 &&& not32 0x40 ∧
      ier0 &&& 0x40 = 0 ∧
      cfg = 3 ||| 0 ||| 0 ∧
      cfgDlab = cfg ||| 0x80 ∧
      cfgDlab &&& 0x80 = 0x80 ∧
      cfgEnd = cfgDlab &&& not32 0x80 ∧
      cfgEnd &&& 0x80 = 0 ∧
      ierEnd = ((d >>> 8) &&& 0xFF) ||| 0x40 ∧
      ierEnd &&& 0x40 = 0x40 ∧
      m'.port.uartConfig = cfgEnd ∧ m'.port.interruptEnable = ierEnd :=
  serialConfig_write_order pxa255 ⟨3, 0, 115200, 0⟩ (Machine.reset 0 []) (by decide)

/-- C10: for every baud rate `b` with `0 < b < 2 ^ 28`, the two divisor bytes
`serialConfig` stores (`high` in the interrupt-enable register, `low` in the
data register) satisfy `high * 256 + low = (14745600 / (16 * b)) mod 65536`,
and this is the whole divisor `14745600 / (16 * b)` exactly when `15 ≤ b`; for
`b ≤ 14` the divisor is at least 65536. -/
theorem serialConfig_divisor_16_bits (c : HwConsts) (params : serialparams_t) (m : Machine)
    (h0 : 0 < params.baudRate) (h28 : params.baudRate < 2 ^ 28) :
    ∃ m' t ier0 high ierEnd low,
      serialConfig c params m = some m' ∧ m'.trace = m.trace ++ t ∧
      writesTo .interruptEnable t = [ier0, high, ierEnd] ∧ writesTo .data t = [low] ∧
      high < 256 ∧ low < 256 ∧
      high * 256 + low = (14745600 / (16 * params.baudRate)) % 65536 ∧
      (high * 256 + low = 14745600 / (16 * params.baudRate) ↔ 15 ≤ params.baudRate) ∧
      (params.baudRate ≤ 14 → 65536 ≤ 14745600 / (16 * params.baudRate)) := by
  have hlt : 14745600 / (16 * params.baudRate) < 65536 ↔ 15 ≤ params.baudRate := by
    rw [Nat.div_lt_iff_lt_mul (by omega)]
    omega
  refine ⟨_, _, m.port.interruptEnable &&& not32 c.UART_PORT_ENABLE,
    ((14745600 / (16 * params.baudRate)) >>> 8) &&& 0xFF,
    (((14745600 / (16 * params.baudRate)) >>> 8) &&& 0xFF) ||| c.UART_PORT_ENABLE,
    (14745600 / (16 * params.baudRate)) &&& 0xFF,
    serialConfig_of_divisor c params m (divisor_of_lt h0 h28), rfl,
    ?_, ?_, ?_, ?_, ?_, ?_, ?_⟩
  · simp [writesTo]
  · simp [writesTo]
  · rw [and_255]; omega
  · rw [and_255]; omega
  · rw [and_255, and_255, shiftRight_8]; omega
  · rw [and_255, and_255, shiftRight_8, ← hlt]
    generalize 14745600 / (16 * params.baudRate) = q
    omega
  · intro h14
    have := hlt.not.2 (by omega)
    omega

theorem serialConfig_divisor_16_bits_witness :
    ∃ m' t ier0 high ierEnd low,
      serialConfig pxa255 ⟨3, 0, 14, 0⟩ (Machine.reset 0 []) = some m' ∧ m'.trace = [] ++ t ∧
      writesTo .interruptEnable t = [ier0, high, ierEnd] ∧ writesTo .data t = [low] ∧
      high < 256 ∧ low < 256 ∧
      high * 256 + low = (14745600 / (16 * 14)) % 65536 ∧
      (high * 256 + low = 14745600 / (16 * 14) ↔ 15 ≤ 14) ∧
      (14 ≤ 14 → 65536 ≤ 14745600 / (16 * 14)) :=
  serialConfig_divisor_16_bits pxa255 ⟨3, 0, 14, 0⟩ (Machine.reset 0 []) (by decide) (by decide)

/-! ## Initialization -/

/-- C3: `serialInit` is idempotent.  From every state the first call returns,
and a second call right after it returns the very same state: the same
register block, the same `gSerialParams`, the same flag, and a trace that has
not grown, so the second call makes no access to any register. -/
theorem serialInit_idempotent (c : HwConsts) (m : Machine) :
    ∃ m1 m2, serialInit c m = some m1 ∧ serialInit c m1 = some m2 ∧
      m2.port = m1.port ∧ m2.gSerialParams = m1.gSerialParams ∧
      m2.bInitialized = m1.bInitialized ∧ m2.trace = m1.trace ∧ m2 = m1 := by
  refine ⟨_, _, serialInit_eq c m, serialInit_eq c _, ?_⟩
  have key : (if m.bInitialized = FALSE then
      { configured c (defaultParams c) 8 { m with gSerialParams := defaultParams c } with
        bInitialized := TRUE }
      else m).bInitialized ≠ FALSE := by
    by_cases h : m.bInitialized = FALSE
    · rw [if_pos h]
      show TRUE ≠ FALSE
      decide
    · rw [if_neg h]
      exact h
  rw [if_neg key]
  exact ⟨rfl, rfl, rfl, rfl, rfl⟩

/-- C4: from a state whose flag is still clear, `serialInit` returns, and ends
in the register state and after the accesses of `serialConfig` applied to the
parameters `DATA_8`, `STOP_1`, 115200, `PARITY_NONE`, which it has stored in
`gSerialParams`: the line-config register ends as `DATA_8`, that is
`DATABITS_LENGTH_0 | DATABITS_LENGTH_1`, the divisor bytes stored are high 0
(in the interrupt-enable register) and low 8 (in the data register), and the
flag is set. -/
theorem serialInit_first_call (c : HwConsts) (hc : c.WellFormed) (m : Machine)
    (h : m.bInitialized = FALSE) :
    ∃ m1 m2 t,
      serialConfig c (defaultParams c) { m with gSerialParams := defaultParams c } = some m1 ∧
      defaultParams c = ⟨databits_t.val c .DATA_8, stopbits_t.val c .STOP_1, 115200,
        parity_t.val c .PARITY_NONE⟩ ∧
      serialInit c m = some m2 ∧ m2.port = m1.port ∧ m2.trace = m1.trace ∧
      m2.gSerialParams = defaultParams c ∧
      m2.port.uartConfig = databits_t.val c .DATA_8 ∧
      databits_t.val c .DATA_8 = c.DATABITS_LENGTH_0 ||| c.DATABITS_LENGTH_1 ∧
      m2.trace = m.trace ++ t ∧
      writesTo .interruptEnable t =
        [m.port.interruptEnable &&& not32 c.UART_PORT_ENABLE, 0, 0 ||| c.UART_PORT_ENABLE] ∧
      writesTo .data t = [8] ∧ m2.port.data = 8 ∧
      m2.bInitialized = TRUE := by
  obtain ⟨hlt, hz⟩ := lineConfig_wellFormed hc .DATA_8 .PARITY_NONE .STOP_1
  have e8 : (8 >>> 8) &&& 0xFF = 0 := by decide
  have e8' : 8 &&& 0xFF = 8 := by decide
  refine ⟨configured c (defaultParams c) 8 { m with gSerialParams := defaultParams c },
    { configured c (defaultParams c) 8 { m with gSerialParams := defaultParams c } with
      bInitialized := TRUE }, _,
    serialConfig_of_divisor c (defaultParams c) _ divisor_default, rfl,
    ?_, rfl, rfl, rfl, ?_, rfl, rfl, ?_, ?_, ?_, rfl⟩
  · rw [serialInit_eq, if_pos h]
  · have := or_and_not32 hlt hz
    simp only [parity_t.val, stopbits_t.val, Nat.or_zero] at this
    simpa [configured, defaultParams, parity_t.val, stopbits_t.val] using this
  · simp [writesTo, e8]
  · simp [writesTo, e8']
  · simp [configured, e8']

theorem serialInit_first_call_witness :
    ∃ m1 m2 t,
      serialConfig pxa255 (defaultParams pxa255)
        { Machine.reset 0 [] with gSerialParams := defaultParams pxa255 } = some m1 ∧
      defaultParams pxa255 = ⟨databits_t.val pxa255 .DATA_8, stopbits_t.val pxa255 .STOP_1,
        115200, parity_t.val pxa255 .PARITY_NONE⟩ ∧
      serialInit pxa255 (Machine.reset 0 []) = some m2 ∧ m2.port = m1.port ∧
      m2.trace = m1.trace ∧ m2.gSerialParams = defaultParams pxa255 ∧
      m2.port.uartConfig = databits_t.val pxa255 .DATA_8 ∧
      databits_t.val pxa255 .DATA_8 = 1 ||| 2 ∧
      m2.trace = [] ++ t ∧
      writesTo .interruptEnable t = [0 &&& not32 0x40, 0, 0 ||| 0x40] ∧
      writesTo .data t = [8] ∧ m2.port.data = 8 ∧
      m2.bInitialized = TRUE :=
  serialInit_first_call pxa255 (by decide) (Machine.reset 0 []) rfl

/-! ## Polling -/

theorem read_status_cons {m : Machine} {s : Nat} {rest : List Nat}
    (h : m.statusFeed = s :: rest) :
    m.read .uartStatus =
      (s, { m with port := { m.port with uartStatus := s }, statusFeed := rest,
                   trace := m.trace ++ [Access.read .uartStatus s] }) := by
  simp [Machine.read, Machine.peek, Machine.deviceStep, h, uart_t.get, uart_t.set]

theorem read_status_nil {m : Machine} (h : m.statusFeed = []) :
    m.read .uartStatus =
      (m.port.uartStatus,
        { m with trace := m.trace ++ [Access.read .uartStatus m.port.uartStatus] }) := by
  simp [Machine.read, Machine.peek, Machine.deviceStep, h, uart_t.get]

theorem read_data_cons {m : Machine} {v : Nat} {rx : List Nat} (h : m.rxFeed = v :: rx) :
    m.read .data =
      (v, { m with port := { m.port with data := v }, rxFeed := rx,
                   trace := m.trace ++ [Access.read .data v] }) := by
  simp [Machine.read, Machine.peek, Machine.deviceStep, h, uart_t.get, uart_t.set]

theorem read_data_trace (m : Machine) :
    (m.read .data).2.trace = m.trace ++ [Access.read .data (m.peek .data)] ∧
    (m.read .data).2.statusFeed = m.statusFeed ∧
    (m.read .data).2.rxFeed = m.rxFeed.tail := by
  cases h : m.rxFeed <;>
    simp [Machine.read, Machine.peek, Machine.deviceStep, h, uart_t.get, uart_t.set]

theorem peek_data_congr {m m' : Machine} (h1 : m'.rxFeed = m.rxFeed)
    (h2 : m'.port.data = m.port.data) : m'.peek .data = m.peek .data := by
  cases h : m.rxFeed <;>
    simp [Machine.peek, Machine.deviceStep, h1, h2, h, uart_t.get, uart_t.set]

/-- Polling the line-status register once for each value of a prefix of the
status feed consumes that prefix and touches nothing else. -/
theorem pollStatus_feed (rest : List Nat) :
    ∀ (pre : List Nat) (m : Machine), m.statusFeed = pre ++ rest →
      (pollStatus pre.length m).trace = m.trace ++ pre.map (Access.read .uartStatus) ∧
      (pollStatus pre.length m).statusFeed = rest ∧
      (pollStatus pre.length m).rxFeed = m.rxFeed ∧
      (pollStatus pre.length m).port.data = m.port.data := by
  intro pre
  induction pre with
  | nil =>
    intro m h
    simpa [pollStatus] using h
  | cons x pre ih =>
    intro m h
    have hx : m.statusFeed = x :: (pre ++ rest) := by simpa using h
    have h1 := ih (m.read .uartStatus).2 (by rw [read_status_cons hx])
    simp only [List.length_cons, pollStatus]
    rw [read_status_cons hx] at h1 ⊢
    simpa using h1

theorem serialPutChar_feed (b s : Nat) (rest : List Nat) (hs : s &&& TRANSMITTER_EMPTY ≠ 0) :
    ∀ (pre : List Nat) (m : Machine) (fuel : Nat),
      (∀ x ∈ pre, x &&& TRANSMITTER_EMPTY = 0) → m.statusFeed = pre ++ s :: rest →
      pre.length + 1 ≤ fuel →
      serialPutChar fuel b m = some ((pollStatus (pre.length + 1) m).write .data (toChar b)) := by
  intro pre
  induction pre with
  | nil =>
    intro m fuel _ h hf
    obtain ⟨f, rfl⟩ : ∃ f, fuel = f + 1 := ⟨fuel - 1, by omega⟩
    have hx : m.statusFeed = s :: rest := by simpa using h
    simp only [serialPutChar, pollStatus, List.length_nil]
    rw [read_status_cons hx]
    simp only [if_neg hs]
  | cons x pre ih =>
    intro m fuel hpre h hf
    obtain ⟨f, rfl⟩ : ∃ f, fuel = f + 1 := ⟨fuel - 1, by omega⟩
    have hx : m.statusFeed = x :: (pre ++ s :: rest) := by simpa using h
    have hx0 : x &&& TRANSMITTER_EMPTY = 0 := hpre x (by simp)
    have h1 := ih (m.read .uartStatus).2 f (fun y hy => hpre y (by simp [hy]))
      (by rw [read_status_cons hx]) (by simp at hf; omega)
    rw [serialPutChar]
    simp only [List.length_cons]
    rw [pollStatus]
    rw [read_status_cons hx] at h1 ⊢
    simp only [if_pos hx0]
    exact h1

theorem serialGetChar_feed (s : Nat) (rest : List Nat) (hs : s &&& DATA_READY ≠ 0) :
    ∀ (pre : List Nat) (m : Machine) (fuel : Nat),
      (∀ x ∈ pre, x &&& DATA_READY = 0) → m.statusFeed = pre ++ s :: rest →
      pre.length + 1 ≤ fuel →
      serialGetChar fuel m =
        some (toChar ((pollStatus (pre.length + 1) m).read .data).1,
              ((pollStatus (pre.length + 1) m).read .data).2) := by
  intro pre
  induction pre with
  | nil =>
    intro m fuel _ h hf
    obtain ⟨f, rfl⟩ : ∃ f, fuel = f + 1 := ⟨fuel - 1, by omega⟩
    have hx : m.statusFeed = s :: rest := by simpa using h
    simp only [serialGetChar, pollStatus, List.length_nil]
    rw [read_status_cons hx]
    simp only [if_neg hs]
  | cons x pre ih =>
    intro m fuel hpre h hf
    obtain ⟨f, rfl⟩ : ∃ f, fuel = f + 1 := ⟨fuel - 1, by omega⟩
    have hx : m.statusFeed = x :: (pre ++ s :: rest) := by simpa using h
    have hx0 : x &&& DATA_READY = 0 := hpre x (by simp)
    have h1 := ih (m.read .uartStatus).2 f (fun y hy => hpre y (by simp [hy]))
      (by rw [read_status_cons hx]) (by simp at hf; omega)
    rw [serialGetChar]
    simp only [List.length_cons]
    rw [pollStatus]
    rw [read_status_cons hx] at h1 ⊢
    simp only [if_pos hx0]
    exact h1

/-- C5: let the values the line-status register shows on successive polls be
`pre`, all with the transmitter-empty bit clear, then `s` with the bit set, so
that the bit is seen set on poll number `N = pre.length + 1`.  With fuel for
`N` polls `serialPutChar` returns; its accesses are exactly the `N` loads of
the status register followed by one store of the byte to the data register,
so no store to the data register precedes the load that shows the bit set. -/
theorem serialPutChar_polls (b : Nat) (hb : b < 256) (pre : List Nat) (s : Nat)
    (rest : List Nat) (hpre : ∀ x ∈ pre, x &&& TRANSMITTER_EMPTY = 0)
    (hs : s &&& TRANSMITTER_EMPTY ≠ 0) (m : Machine)
    (hfeed : m.statusFeed = pre ++ s :: rest) (fuel : Nat) (hfuel : pre.length + 1 ≤ fuel) :
    ∃ m', serialPutChar fuel b m = some m' ∧
      m'.trace = m.trace ++ (pre ++ [s]).map (Access.read .uartStatus)
        ++ [Access.write .data b] ∧
      ((pre ++ [s]).map (Access.read .uartStatus)).length = pre.length + 1 ∧
      writesTo .data ((pre ++ [s]).map (Access.read .uartStatus)) = [] ∧
      m'.port.data = b ∧ m'.statusFeed = rest := by
  have hb' : toChar b = b := Nat.mod_eq_of_lt hb
  have hp := pollStatus_feed rest (pre ++ [s]) m (by simpa using hfeed)
  rw [List.length_append, List.length_singleton] at hp
  refine ⟨_, serialPutChar_feed b s rest hs pre m fuel hpre hfeed hfuel, ?_, by simp, ?_, ?_, ?_⟩
  · simp [Machine.write, hp.1, hb']
  · generalize pre ++ [s] = l
    induction l with
    | nil => rfl
    | cons x l ih => simpa [writesTo] using ih
  · simp [Machine.write, uart_t.set, hb']
  · simpa [Machine.write] using hp.2.1

theorem serialPutChar_polls_witness :
    ∃ m', serialPutChar 3 65 { Machine.reset 0 [] with statusFeed := [0, 1, 0x40, 0] } =
        some m' ∧
      m'.trace = [] ++ ([0, 1] ++ [0x40]).map (Access.read .uartStatus)
        ++ [Access.write .data 65] ∧
      (([0, 1] ++ [0x40]).map (Access.read .uartStatus)).length = [0, 1].length + 1 ∧
      writesTo .data (([0, 1] ++ [0x40]).map (Access.read .uartStatus)) = [] ∧
      m'.port.data = 65 ∧ m'.statusFeed = [0] :=
  serialPutChar_polls 65 (by decide) [0, 1] 0x40 [0] (by decide) (by decide)
    { Machine.reset 0 [] with statusFeed := [0, 1, 0x40, 0] } rfl 3 (by decide)

/-- C6: let the values the line-status register shows on successive polls be
`pre`, all with the data-ready bit clear, then `s` with the bit set.  With
fuel for these polls `serialGetChar` returns the byte (the low eight bits) the
data register presents in the state reached by the poll that first shows the
bit set; its accesses are the loads of the status register followed by exactly
one load of the data register, which is its last access.  The polls leave
the data register as it was before the call. -/
theorem serialGetChar_polls (pre : List Nat) (s : Nat) (rest : List Nat)
    (hpre : ∀ x ∈ pre, x &&& DATA_READY = 0) (hs : s &&& DATA_READY ≠ 0) (m : Machine)
    (hfeed : m.statusFeed = pre ++ s :: rest) (fuel : Nat) (hfuel : pre.length + 1 ≤ fuel) :
    ∃ ch m', serialGetChar fuel m = some (ch, m') ∧
      ch = toChar ((pollStatus (pre.length + 1) m).peek .data) ∧
      ((pollStatus (pre.length + 1) m).peek .data < 256 →
        ch = (pollStatus (pre.length + 1) m).peek .data) ∧
      (pollStatus (pre.length + 1) m).trace =
        m.trace ++ (pre ++ [s]).map (Access.read .uartStatus) ∧
      m'.trace = (pollStatus (pre.length + 1) m).trace
        ++ [Access.read .data ((pollStatus (pre.length + 1) m).peek .data)] ∧
      (pollStatus (pre.length + 1) m).peek .data = m.peek .data ∧
      m'.statusFeed = rest ∧ m'.rxFeed = m.rxFeed.tail := by
  have hp := pollStatus_feed rest (pre ++ [s]) m (by simpa using hfeed)
  rw [List.length_append, List.length_singleton] at hp
  have hr := read_data_trace (pollStatus (pre.length + 1) m)
  refine ⟨_, _, serialGetChar_feed s rest hs pre m fuel hpre hfeed hfuel, rfl, ?_, hp.1,
    hr.1, peek_data_congr hp.2.2.1 hp.2.2.2, ?_, ?_⟩
  · intro h
    exact Nat.mod_eq_of_lt h
  · rw [hr.2.1, hp.2.1]
  · rw [hr.2.2, hp.2.2.1]

theorem serialGetChar_polls_witness :
    ∃ ch m', serialGetChar 2 { Machine.reset 0 [104, 105] with statusFeed := [0x40, 0x41] } =
        some (ch, m') ∧
      ch = toChar ((pollStatus ([0x40].length + 1)
        { Machine.reset 0 [104, 105] with statusFeed := [0x40, 0x41] }).peek .data) ∧
      ((pollStatus ([0x40].length + 1)
          { Machine.reset 0 [104, 105] with statusFeed := [0x40, 0x41] }).peek .data < 256 →
        ch = (pollStatus ([0x40].length + 1)
          { Machine.reset 0 [104, 105] with statusFeed := [0x40, 0x41] }).peek .data) ∧
      (pollStatus ([0x40].length + 1)
          { Machine.reset 0 [104, 105] with statusFeed := [0x40, 0x41] }).trace =
        [] ++ ([0x40] ++ [0x41]).map (Access.read .uartStatus) ∧
      m'.trace = (pollStatus ([0x40].length + 1)
          { Machine.reset 0 [104, 105] with statusFeed := [0x40, 0x41] }).trace
        ++ [Access.read .data 104] ∧
      (pollStatus ([0x40].length + 1)
          { Machine.reset 0 [104, 105] with statusFeed := [0x40, 0x41] }).peek .data = 104 ∧
      m'.statusFeed = [] ∧ m'.rxFeed = [105] :=
  serialGetChar_polls [0x40] 0x41 [] (by decide) (by decide)
    { Machine.reset 0 [104, 105] with statusFeed := [0x40, 0x41] } rfl 2 (by decide)

/-! ## The echo demo -/

theorem serialPutChar_ready (b : Nat) {m : Machine} (hm : m.AlwaysReady) {fuel : Nat}
    (hf : 1 ≤ fuel) :
    ∃ m' t, serialPutChar fuel b m = some m' ∧ m'.AlwaysReady ∧ m'.rxFeed = m.rxFeed ∧
      m'.trace = m.trace ++ t ∧ writesTo .data t = [toChar b] := by
  obtain ⟨f, rfl⟩ : ∃ f, fuel = f + 1 := ⟨fuel - 1, by omega⟩
  rw [serialPutChar]
  cases hfeed : m.statusFeed with
  | nil =>
    rw [read_status_nil hfeed]
    simp only [if_neg hm.1.1]
    refine ⟨_, [Access.read .uartStatus m.port.uartStatus, Access.write .data (toChar b)],
      rfl, ?_, ?_, ?_, ?_⟩
    · exact ⟨by simpa [Machine.write, uart_t.set] using hm.1,
        by simpa [Machine.write] using hm.2⟩
    · simp [Machine.write]
    · simp [Machine.write]
    · simp [writesTo]
  | cons s rest =>
    have hs : Ready s := hm.2 s (by simp [hfeed])
    rw [read_status_cons hfeed]
    simp only [if_neg hs.1]
    refine ⟨_, [Access.read .uartStatus s, Access.write .data (toChar b)],
      rfl, ?_, ?_, ?_, ?_⟩
    · refine ⟨by simpa [Machine.write, uart_t.set] using hs, ?_⟩
      intro x hx
      exact hm.2 x (by simp [hfeed]; right; simpa [Machine.write] using hx)
    · simp [Machine.write]
    · simp [Machine.write]
    · simp [writesTo]

theorem serialGetChar_ready {m : Machine} (hm : m.AlwaysReady) {fuel : Nat} (hf : 1 ≤ fuel)
    {v : Nat} {rx : List Nat} (hrx : m.rxFeed = v :: rx) :
    ∃ m' t, serialGetChar fuel m = some (toChar v, m') ∧ m'.AlwaysReady ∧ m'.rxFeed = rx ∧
      m'.trace = m.trace ++ t ∧ writesTo .data t = [] := by
  obtain ⟨f, rfl⟩ : ∃ f, fuel = f + 1 := ⟨fuel - 1, by omega⟩
  rw [serialGetChar]
  cases hfeed : m.statusFeed with
  | nil =>
    rw [read_status_nil hfeed]
    simp only [if_neg hm.1.2]
    rw [read_data_cons (by simpa using hrx)]
    refine ⟨_, [Access.read .uartStatus m.port.uartStatus, Access.read .data v],
      rfl, ?_, rfl, ?_, ?_⟩
    · exact ⟨by simpa using hm.1, by simpa using hm.2⟩
    · simp
    · simp [writesTo]
  | cons s rest =>
    have hs : Ready s := hm.2 s (by simp [hfeed])
    rw [read_status_cons hfeed]
    simp only [if_neg hs.2]
    rw [read_data_cons (by simpa using hrx)]
    refine ⟨_, [Access.read .uartStatus s, Access.read .data v], rfl, ?_, rfl, ?_, ?_⟩
    · refine ⟨by simpa using hs, ?_⟩
      intro x hx
      exact hm.2 x (by simp [hfeed]; right; simpa using hx)
    · simp
    · simp [writesTo]

/-- One turn of the demo loop on a ready device: the received value is taken
from the feed and echoed with carriage return and line feed. -/
theorem echo_turn {m : Machine} (hm : m.AlwaysReady) {fuel : Nat} (hf : 1 ≤ fuel)
    (v : Nat) (rx : List Nat) (hrx : m.rxFeed = v :: rx) :
    ∃ m1 m2 m3 m4 t, serialGetChar fuel m = some (toChar v, m1) ∧
      serialPutChar fuel (toChar v) m1 = some m2 ∧ serialPutChar fuel 13 m2 = some m3 ∧
      serialPutChar fuel 10 m3 = some m4 ∧ m4.AlwaysReady ∧ m4.rxFeed = rx ∧
      m4.trace = m.trace ++ t ∧ writesTo .data t = [toChar v, 13, 10] := by
  obtain ⟨m1, t1, e1, r1, x1, tr1, w1⟩ := serialGetChar_ready hm hf hrx
  obtain ⟨m2, t2, e2, r2, x2, tr2, w2⟩ := serialPutChar_ready (toChar v) r1 hf
  obtain ⟨m3, t3, e3, r3, x3, tr3, w3⟩ := serialPutChar_ready 13 r2 hf
  obtain ⟨m4, t4, e4, r4, x4, tr4, w4⟩ := serialPutChar_ready 10 r3 hf
  refine ⟨m1, m2, m3, m4, t1 ++ t2 ++ t3 ++ t4, e1, e2, e3, e4, r4, ?_, ?_, ?_⟩
  · rw [x4, x3, x2, x1]
  · rw [tr4, tr3, tr2, tr1]
    simp
  · simp [writesTo_append, w1, w2, w3, w4, toChar]

theorem mainLoop_echo (fuel : Nat) (hf : 1 ≤ fuel) (rest : List Nat) :
    ∀ (pre : List Nat) (n rcvChar : Nat) (m : Machine), rcvChar ≠ 113 → m.AlwaysReady →
      (∀ b ∈ pre, b < 256) → 113 ∉ pre → m.rxFeed = pre ++ 113 :: rest →
      pre.length + 2 ≤ n →
      ∃ m' t, mainLoop fuel n rcvChar m = some m' ∧ m'.trace = m.trace ++ t ∧
        writesTo .data t = echoOf (pre ++ [113]) ∧ m'.rxFeed = rest := by
  intro pre
  induction pre with
  | nil =>
    intro n rcvChar m hq hm _ _ hrx hn
    obtain ⟨k, rfl⟩ : ∃ k, n = k + 2 := ⟨n - 2, by omega⟩
    obtain ⟨m1, m2, m3, m4, t, e1, e2, e3, e4, -, x4, tr4, w4⟩ :=
      echo_turn hm hf 113 rest (by simpa using hrx)
    have hc : toChar 113 = 113 := by decide
    rw [hc] at e1 e2 w4
    refine ⟨m4, t, ?_, tr4, by simpa [echoOf] using w4, x4⟩
    rw [mainLoop]
    simp only [if_pos hq, e1, e2, e3, e4]
    rw [mainLoop]
    simp
  | cons b pre ih =>
    intro n rcvChar m hq hm hb hnq hrx hn
    obtain ⟨k, rfl⟩ : ∃ k, n = k + 1 := ⟨n - 1, by omega⟩
    obtain ⟨m1, m2, m3, m4, t, e1, e2, e3, e4, r4, x4, tr4, w4⟩ :=
      echo_turn hm hf b (pre ++ 113 :: rest) (by simpa using hrx)
    have hc : toChar b = b := Nat.mod_eq_of_lt (hb b (by simp))
    have hb113 : b ≠ 113 := fun h => hnq (by simp [h])
    rw [hc] at e1 e2 w4
    obtain ⟨m', t', e', tr', w', x'⟩ := ih k b m4 hb113 r4
      (fun y hy => hb y (by simp [hy])) (fun h => hnq (by simp [h])) x4
      (by simp at hn; omega)
    refine ⟨m', t ++ t', ?_, ?_, ?_, x'⟩
    · rw [mainLoop]
      simp only [if_pos hq, e1, e2, e3, e4]
      exact e'
    · rw [tr', tr4]
      simp
    · simp [writesTo_append, w4, w', echoOf]

theorem serialInit_ready (c : HwConsts) {m : Machine} (hm : m.AlwaysReady) :
    ∃ m0, serialInit c m = some m0 ∧ m0.AlwaysReady ∧ m0.rxFeed = m.rxFeed := by
  refine ⟨_, serialInit_eq c m, ?_⟩
  by_cases h : m.bInitialized = FALSE
  · rw [if_pos h]
    exact ⟨hm, rfl⟩
  · rw [if_neg h]
    exact ⟨hm, rfl⟩

/-- C8: on a device that reports ready on every poll, let the received values
be the bytes `pre`, none of them `'q'` (113), then `'q'`, then `rest`.  With
fuel for `pre.length + 2` evaluations of the loop condition, `main` returns 0;
after `serialInit` its stores to the data register are the greeting
`start`, carriage return, line feed, and then each of the bytes `pre` and the
`'q'`, each followed by carriage return and line feed; the values `rest`
received after the `'q'` are left unread. -/
theorem main_echo (c : HwConsts) (pre rest : List Nat) (m : Machine) (hm : m.AlwaysReady)
    (hb : ∀ b ∈ pre, b < 256) (hq : 113 ∉ pre) (hrx : m.rxFeed = pre ++ 113 :: rest)
    (fuel : Nat) (hfuel : pre.length + 2 ≤ fuel) :
    ∃ m0 m' t, serialInit c m = some m0 ∧ main c fuel m = some (0, m') ∧
      m'.trace = m0.trace ++ t ∧
      writesTo .data t = [115, 116, 97, 114, 116, 13, 10] ++ echoOf (pre ++ [113]) ∧
      m'.rxFeed = rest := by
  have hf : 1 ≤ fuel := by omega
  obtain ⟨m0, e0, r0, x0⟩ := serialInit_ready c hm
  obtain ⟨m1, t1, e1, r1, x1, tr1, w1⟩ := serialPutChar_ready 115 r0 hf
  obtain ⟨m2, t2, e2, r2, x2, tr2, w2⟩ := serialPutChar_ready 116 r1 hf
  obtain ⟨m3, t3, e3, r3, x3, tr3, w3⟩ := serialPutChar_ready 97 r2 hf
  obtain ⟨m4, t4, e4, r4, x4, tr4, w4⟩ := serialPutChar_ready 114 r3 hf
  obtain ⟨m5, t5, e5, r5, x5, tr5, w5⟩ := serialPutChar_ready 116 r4 hf
  obtain ⟨m6, t6, e6, r6, x6, tr6, w6⟩ := serialPutChar_ready 13 r5 hf
  obtain ⟨m7, t7, e7, r7, x7, tr7, w7⟩ := serialPutChar_ready 10 r6 hf
  have hrx7 : m7.rxFeed = pre ++ 113 :: rest := by
    rw [x7, x6, x5, x4, x3, x2, x1, x0, hrx]
  obtain ⟨m', t', e', tr', w', x'⟩ := mainLoop_echo fuel hf rest pre fuel (toChar 0) m7
    (by decide) r7 hb hq hrx7 hfuel
  refine ⟨m0, m', t1 ++ t2 ++ t3 ++ t4 ++ t5 ++ t6 ++ t7 ++ t', e0, ?_, ?_, ?_, x'⟩
  · simp [main, e0, e1, e2, e3, e4, e5, e6, e7, e']
  · rw [tr', tr7, tr6, tr5, tr4, tr3, tr2, tr1]
    simp
  · simp [writesTo_append, w1, w2, w3, w4, w5, w6, w7, w', toChar]

theorem main_echo_witness :
    ∃ m0 m' t, serialInit pxa255 (Machine.reset 0x61 [104, 105, 113, 7]) = some m0 ∧
      main pxa255 4 (Machine.reset 0x61 [104, 105, 113, 7]) = some (0, m') ∧
      m'.trace = m0.trace ++ t ∧
      writesTo .data t =
        [115, 116, 97, 114, 116, 13, 10] ++ [104, 13, 10, 105, 13, 10, 113, 13, 10] ∧
      m'.rxFeed = [7] :=
  main_echo pxa255 [104, 105] [7] (Machine.reset 0x61 [104, 105, 113, 7]) (by decide)
    (by decide) (by decide) rfl 4 (by decide)

end SerialDriver
